import Mathlib

/-!
Verification of the shipper-lite compliance core.

The repository ships the React frontend (src/frontend) and the README; the
FastAPI backend that holds the validation engine (backend/app/services/
validation_engine.py and report_generator.py in the project layout) is not
part of the source tree available here.  The engine is therefore modelled
from the specification (spec sections 3, 4, 6, 7), while the frontend data
shapes (ReportData, Validation, FIELD_NAME_MAP, the display-name fallback)
are translated directly from src/frontend/src/pages/ResultsPage.tsx.

Strings are computed on explicit character lists so that every definition
evaluates inside the kernel.
-/

namespace Shipper

/-! ### Data model (spec section 3) -/

/-- Modelled from the spec: ExtractedField, the immutable input produced by
the external extractor.  The confidence score (a float in the source) is
carried opaquely as a rational; the engine never reads it. -/
structure ExtractedField where
  name : String
  raw_value : Option String
  confidence : Rat
deriving Repr, DecidableEq

/-- Calendar date used as the normalized date value. -/
structure CalDate where
  year : Nat
  month : Nat
  day : Nat
deriving Repr, DecidableEq

def isLeapYear (y : Nat) : Bool :=
  (y % 4 == 0 && y % 100 != 0) || y % 400 == 0

def daysInMonth (y m : Nat) : Nat :=
  if m == 2 then (if isLeapYear y then 29 else 28)
  else if m == 4 || m == 6 || m == 9 || m == 11 then 30
  else 31

def validDate (y m d : Nat) : Bool :=
  decide (1 ≤ m) && decide (m ≤ 12) && decide (1 ≤ d) && decide (d ≤ daysInMonth y m)

/-- Modelled from the spec: NormalizedValue, one of string, decimal, date,
integer.  The decimal variant carries the resolved currency alongside the
amount so that the invoice_value predicate can check that the currency was
resolved during money normalization. -/
inductive NormalizedValue where
  | str (s : String)
  | dec (amount : Rat) (currency : Option String)
  | date (d : CalDate)
  | int (n : Int)
deriving Repr, DecidableEq

/-- Modelled from the spec: NormalizedField, created by the Normalizer;
present is false when raw_value is null, empty or unparsable. -/
structure NormalizedField where
  name : String
  value : NormalizedValue
  present : Bool
deriving Repr, DecidableEq

inductive DocType where
  | invoice
  | packing_list
deriving Repr, DecidableEq

/-- Modelled from the spec: DocumentFieldSet, one per uploaded document,
a mapping from field names to normalized fields. -/
structure DocumentFieldSet where
  document_type : DocType
  fields : List (String × NormalizedField)
deriving Repr, DecidableEq

/-- Modelled from the spec: ValidationResult, one per rule evaluated per
applicable document. -/
structure ValidationResult where
  field_name : String
  passed : Bool
  error_message : Option String
deriving Repr, DecidableEq

inductive Status where
  | pass
  | fail
deriving Repr, DecidableEq

/-- Modelled from the spec: ComplianceReport, the engine output with the
exact field names of the JSON contract. -/
structure ComplianceReport where
  document_id : String
  overall_status : Status
  validations : List ValidationResult
  fix_instructions : List String
deriving Repr, DecidableEq

/-! ### Character-list helpers for normalization -/

def natOfDigits (cs : List Char) : Nat :=
  cs.foldl (fun n c => 10 * n + (c.toNat - 48)) 0

def allDigits (cs : List Char) : Bool :=
  !cs.isEmpty && cs.all Char.isDigit

def dropWs (cs : List Char) : List Char :=
  cs.dropWhile Char.isWhitespace

def trimWs (cs : List Char) : List Char :=
  ((cs.dropWhile Char.isWhitespace).reverse.dropWhile Char.isWhitespace).reverse

/-- Split on whitespace, dropping empty segments; the accumulator collects
the current word reversed. -/
def splitWsAux : List Char → List Char → List (List Char)
  | [], acc => if acc.isEmpty then [] else [acc.reverse]
  | c :: t, acc =>
    if c.isWhitespace then
      (if acc.isEmpty then splitWsAux t [] else acc.reverse :: splitWsAux t [])
    else splitWsAux t (c :: acc)

def wordsOf (cs : List Char) : List (List Char) :=
  splitWsAux cs []

/-- Split on a separator predicate, keeping empty segments (used for date
and decimal-point splitting, where an empty segment is malformed input). -/
def splitKeep (p : Char → Bool) : List Char → List (List Char)
  | [] => [[]]
  | c :: t =>
    if p c then [] :: splitKeep p t
    else
      match splitKeep p t with
      | [] => [[c]]
      | h :: r => (c :: h) :: r

def joinTokens : List (List Char) → List Char
  | [] => []
  | [t] => t
  | t :: rest => t ++ ' ' :: joinTokens rest

/-- Modelled from the spec: text normalization — trim, collapse internal
whitespace runs, case-fold. -/
def textNormalize (s : String) : String :=
  String.mk (joinTokens (wordsOf (s.toList.map Char.toLower)))

/-! ### Money, date and integer parsing (spec section 4.1) -/

def parseDecimal (cs : List Char) : Option Rat :=
  match splitKeep (fun c => c == '.') cs with
  | [a] => if allDigits a then some ((natOfDigits a : Nat) : Rat) else none
  | [a, b] =>
    if allDigits a && b.all Char.isDigit then
      some ((natOfDigits a : Rat) + (natOfDigits b : Rat) / ((10 : Rat) ^ b.length))
    else none
  | _ => none

def currencySymbols : List (Char × String) :=
  [('$', "USD"), ('€', "EUR"), ('£', "GBP"), ('¥', "CNY")]

/-- Modelled from the spec: parse a leading currency symbol or three-letter
ISO code; returns the resolved currency (if any) and the remaining text. -/
def leadCurrency : List Char → Option String × List Char
  | [] => (none, [])
  | c :: t =>
    match currencySymbols.find? (fun p => p.1 == c) with
    | some p => (some p.2, t)
    | none =>
      let alpha := (c :: t).takeWhile Char.isAlpha
      if alpha.length == 3 then
        (some (String.mk (alpha.map Char.toUpper)), (c :: t).drop 3)
      else (none, c :: t)

/-- Modelled from the spec: money normalization — leading currency symbol or
ISO code plus numeric amount, thousands separators stripped; no numeric
token means failure. -/
def parseMoney (cs : List Char) : Option String × Option Rat :=
  let step := leadCurrency (dropWs cs)
  let noSep := (dropWs step.2).filter (fun c => c != ',')
  let numTok := noSep.takeWhile (fun c => c.isDigit || c == '.')
  (step.1, parseDecimal numTok)

inductive LocaleHint where
  | dmy
  | mdy
deriving Repr, DecidableEq

/-- Modelled from the spec: date normalization — day-month-year,
month/day/year or ISO input; ISO (a four-digit leading year) is preferred,
otherwise the caller's locale hint resolves the ambiguity; the result must
be a valid calendar date. -/
def parseDate (loc : LocaleHint) (cs0 : List Char) : Option CalDate :=
  let cs := trimWs cs0
  let parts :=
    if cs.contains '-' then splitKeep (fun c => c == '-') cs
    else splitKeep (fun c => c == '/') cs
  match parts with
  | [a, b, c] =>
    if allDigits a && allDigits b && allDigits c then
      let ymd :=
        if a.length == 4 then (natOfDigits a, natOfDigits b, natOfDigits c)
        else
          match loc with
          | .dmy => (natOfDigits c, natOfDigits b, natOfDigits a)
          | .mdy => (natOfDigits c, natOfDigits a, natOfDigits b)
      if validDate ymd.1 ymd.2.1 ymd.2.2 then some ⟨ymd.1, ymd.2.1, ymd.2.2⟩
      else none
    else none
  | _ => none

/-! ### Field Normalizer (spec section 4.1) -/

inductive TypeHint where
  | text
  | money
  | date
  | integer
deriving Repr, DecidableEq

def notPresent (name : String) : NormalizedField :=
  ⟨name, .str "", false⟩

/-- Modelled from the spec: the Field Normalizer.  It is a total function:
a null, empty or unparsable raw_value yields a field with present = false
instead of raising, funnelling every missing/invalid case into the Rule
Engine's reporting path. -/
def normalize (raw : ExtractedField) (hint : TypeHint) (loc : LocaleHint) :
    NormalizedField :=
  match raw.raw_value with
  | none => notPresent raw.name
  | some s =>
    if s.toList.all Char.isWhitespace then notPresent raw.name
    else
      match hint with
      | .text => ⟨raw.name, .str (textNormalize s), true⟩
      | .money =>
        match parseMoney s.toList with
        | (ccy, some amt) => ⟨raw.name, .dec amt ccy, true⟩
        | (_, none) => notPresent raw.name
      | .date =>
        match parseDate loc s.toList with
        | some d => ⟨raw.name, .date d, true⟩
        | none => notPresent raw.name
      | .integer =>
        match s.toList.filter Char.isDigit with
        | [] => notPresent raw.name
        | ds => ⟨raw.name, .int (natOfDigits ds : Int), true⟩

/-! ### Field access -/

def lookupField {α : Type} (k : String) : List (String × α) → Option α
  | [] => none
  | p :: rest => if p.1 = k then some p.2 else lookupField k rest

def DocumentFieldSet.get (fs : DocumentFieldSet) (name : String) :
    Option NormalizedField :=
  lookupField name fs.fields

/-- The string value of a field, when present with a string value. -/
def getStr (fs : DocumentFieldSet) (name : String) : Option String :=
  match fs.get name with
  | some f =>
    match f.present, f.value with
    | true, .str s => some s
    | _, _ => none
  | none => none

/-- The normalized integer item count of a document, when present. -/
def getCount (fs : DocumentFieldSet) : Option Int :=
  match fs.get "item_count" with
  | some f =>
    match f.present, f.value with
    | true, .int n => some n
    | _, _ => none
  | none => none

/-! ### Rule Engine: single-document rules (spec section 4.2) -/

def digitsOnly (s : String) : String :=
  String.mk (s.toList.filter Char.isDigit)

/-- Digits-only projection matches the regex of six to ten digits: the
projection is all digits by construction, so the regex amounts to a length
bound. -/
def hsCodeOk (fs : DocumentFieldSet) : Bool :=
  match getStr fs "hs_code" with
  | some s => decide (6 ≤ (digitsOnly s).length) && decide ((digitsOnly s).length ≤ 10)
  | none => false

def invoiceValueOk (fs : DocumentFieldSet) : Bool :=
  match fs.get "invoice_value" with
  | some f =>
    match f.present, f.value with
    | true, .dec _ (some _) => true
    | _, _ => false
  | none => false

def shipperNameOk (fs : DocumentFieldSet) : Bool :=
  match getStr fs "shipper_name" with
  | some s => decide (2 < s.length)
  | none => false

def consigneeNameOk (fs : DocumentFieldSet) : Bool :=
  match getStr fs "consignee_name" with
  | some s => decide (2 < s.length)
  | none => false

def consigneeAddressOk (fs : DocumentFieldSet) : Bool :=
  match getStr fs "consignee_address" with
  | some s => decide (10 < s.length)
  | none => false

/-- Modelled from the spec: the configurable block-list of vague product
descriptions (generic single-word descriptions); configurable data, not a
fixed enumeration. -/
def vagueTerms : List String :=
  ["goods", "items", "products", "samples", "misc", "cargo"]

def tokenCountOf (s : String) : Nat :=
  (wordsOf s.toList).length

def productDescriptionOk (fs : DocumentFieldSet) : Bool :=
  match getStr fs "product_description" with
  | some s => !(vagueTerms.contains s) && decide (2 < tokenCountOf s)
  | none => false

def invoiceDateOk (fs : DocumentFieldSet) : Bool :=
  match fs.get "invoice_date" with
  | some f =>
    match f.present, f.value with
    | true, .date _ => true
    | _, _ => false
  | none => false

/-- Modelled from the spec: a declarative single-document rule — field name,
applicability by document type, predicate, fixed failure message. -/
structure SingleRule where
  field_name : String
  applies : DocType → Bool
  pred : DocumentFieldSet → Bool
  message : String

def hsCodeRule : SingleRule :=
  ⟨"hs_code", fun dt => dt == DocType.invoice, hsCodeOk, "HS code missing or invalid"⟩

def invoiceValueRule : SingleRule :=
  ⟨"invoice_value", fun dt => dt == DocType.invoice, invoiceValueOk, "Total invoice value missing"⟩

def shipperNameRule : SingleRule :=
  ⟨"shipper_name", fun _ => true, shipperNameOk, "Shipper name incomplete"⟩

def consigneeNameRule : SingleRule :=
  ⟨"consignee_name", fun _ => true, consigneeNameOk, "Consignee name incomplete"⟩

def consigneeAddressRule : SingleRule :=
  ⟨"consignee_address", fun _ => true, consigneeAddressOk, "Consignee address incomplete"⟩

def productDescriptionRule : SingleRule :=
  ⟨"product_description", fun _ => true, productDescriptionOk, "Product description too vague"⟩

def invoiceDateRule : SingleRule :=
  ⟨"invoice_date", fun dt => dt == DocType.invoice, invoiceDateOk, "Missing required date"⟩

/-- Modelled from the spec: the static single-document rule catalog in its
fixed declaration order; HS code, invoice value and invoice date apply only
to invoices, the identity and description rules apply to both documents. -/
def singleRules : List SingleRule :=
  [hsCodeRule, invoiceValueRule, shipperNameRule, consigneeNameRule,
   consigneeAddressRule, productDescriptionRule, invoiceDateRule]

def evalSingleRule (fs : DocumentFieldSet) (r : SingleRule) : ValidationResult :=
  ⟨r.field_name, r.pred fs, if r.pred fs then none else some r.message⟩

/-- Modelled from the spec: evaluate_single — every applicable rule yields
exactly one ValidationResult. -/
def evaluate_single (fs : DocumentFieldSet) : List ValidationResult :=
  (singleRules.filter (fun r => r.applies fs.document_type)).map (evalSingleRule fs)

/-! ### Fuzzy identity matching (spec section 4.3) -/

/-- Case-fold and strip punctuation: every character that is neither
alphanumeric nor whitespace becomes a space, so punctuation also separates
tokens. -/
def foldStrip (s : String) : List Char :=
  s.toList.map (fun c =>
    let lc := c.toLower
    if lc.isAlphanum || lc.isWhitespace then lc else ' ')

/-- The fully normalized form of a name: case-folded, punctuation stripped,
whitespace collapsed. -/
def normNameChars (s : String) : List Char :=
  joinTokens (wordsOf (foldStrip s))

/-- The set of word tokens of a normalized name (duplicates removed). -/
def wordTokens (s : String) : List (List Char) :=
  (wordsOf (foldStrip s)).dedup

def interTokens (a b : String) : List (List Char) :=
  (wordTokens a).filter (fun t => (wordTokens b).contains t)

def unionTokens (a b : String) : List (List Char) :=
  ((wordTokens a) ++ (wordTokens b)).dedup

/-- Modelled from the spec: the tunable token-overlap threshold 0.6, kept as
the fraction thresholdNum / thresholdDen so the decision procedure stays on
integers. -/
def thresholdNum : Nat := 6

def thresholdDen : Nat := 10

/-- The named configuration constant 0.6 as a rational. -/
def matchThreshold : Rat := (thresholdNum : Rat) / (thresholdDen : Rat)

/-- Jaccard token-overlap ratio of two names. -/
def tokenOverlap (a b : String) : Rat :=
  ((interTokens a b).length : Rat) / ((unionTokens a b).length : Rat)

/-- Integer form of the threshold test on the overlap ratio. -/
def overlapMeets (a b : String) : Bool :=
  decide (thresholdNum * (unionTokens a b).length ≤ thresholdDen * (interTokens a b).length)

def listIsInfix (needle : List Char) : List Char → Bool
  | [] => needle.isEmpty
  | c :: t => needle.isPrefixOf (c :: t) || listIsInfix needle t

/-- Modelled from the spec: fuzzy identity match — pass when the token-set
overlap ratio reaches the threshold or one normalized string is a substring
of the other. -/
def fuzzyMatch (a b : String) : Bool :=
  overlapMeets a b ||
    listIsInfix (normNameChars a) (normNameChars b) ||
    listIsInfix (normNameChars b) (normNameChars a)

/-! ### Cross-Document Reconciler (spec section 4.3) -/

/-- Modelled from the spec: a declarative cross-document rule — field name
and a check returning pass/fail plus an optional message naming the
specific discrepancy. -/
structure CrossRule where
  field_name : String
  run : DocumentFieldSet → DocumentFieldSet → Bool × Option String

def cannotVerifyCounts : String :=
  "cannot verify item count: missing in one or both documents"

def countMismatchMsg (a b : Int) : String :=
  "item count mismatch: invoice=" ++ toString a ++ ", packing list=" ++ toString b

/-- Modelled from the spec: item_count_match — passes iff both normalized
counts are present and equal; a missing count on either side fails with a
distinct cannot-verify message; unequal counts fail with a message naming
both counts. -/
def itemCountRun (inv pl : DocumentFieldSet) : Bool × Option String :=
  match getCount inv, getCount pl with
  | some a, some b =>
    if a = b then (true, none) else (false, some (countMismatchMsg a b))
  | _, _ => (false, some cannotVerifyCounts)

/-- Modelled from the spec: invoice_number_match — exact match of the
case-folded normalized invoice numbers; fails on any difference or absence
in either document. -/
def invoiceNumberRun (inv pl : DocumentFieldSet) : Bool × Option String :=
  match getStr inv "invoice_number", getStr pl "invoice_number" with
  | some a, some b =>
    if a = b then (true, none)
    else (false, some ("invoice number mismatch: invoice=" ++ a ++ ", packing list=" ++ b))
  | _, _ => (false, some "cannot verify invoice number: missing in one or both documents")

/-- Modelled from the spec: shipper_consistency / consignee_consistency —
fuzzy identity match on the corresponding name field across documents; a
missing name on either side fails with a cannot-verify message. -/
def consistencyRun (fieldKey label : String) (inv pl : DocumentFieldSet) :
    Bool × Option String :=
  match getStr inv fieldKey, getStr pl fieldKey with
  | some a, some b =>
    if fuzzyMatch a b then (true, none)
    else (false, some (label ++ " differs between invoice and packing list"))
  | _, _ => (false, some ("cannot verify " ++ label ++ ": missing in one or both documents"))

def itemCountRule : CrossRule := ⟨"item_count_match", itemCountRun⟩

def invoiceNumberRule : CrossRule := ⟨"invoice_number_match", invoiceNumberRun⟩

def shipperConsistencyRule : CrossRule :=
  ⟨"shipper_consistency", consistencyRun "shipper_name" "shipper name"⟩

def consigneeConsistencyRule : CrossRule :=
  ⟨"consignee_consistency", consistencyRun "consignee_name" "consignee name"⟩

/-- Modelled from the spec: the static cross-document rule catalog in its
fixed declaration order. -/
def crossRules : List CrossRule :=
  [itemCountRule, invoiceNumberRule, shipperConsistencyRule, consigneeConsistencyRule]

def evalCrossRule (inv pl : DocumentFieldSet) (r : CrossRule) : ValidationResult :=
  ⟨r.field_name, (r.run inv pl).1, (r.run inv pl).2⟩

/-- Modelled from the spec: evaluate_cross — each cross-document rule
produces exactly one ValidationResult regardless of which side is at
fault. -/
def evaluate_cross (inv pl : DocumentFieldSet) : List ValidationResult :=
  crossRules.map (evalCrossRule inv pl)

/-! ### Fix-Instruction Deriver (spec section 4.4) -/

/-- Modelled from the spec: map a failed result's field name to a fix
template and interpolate the specific discrepancy; the rule-specific
message carries the failure cause, so different causes select different
instruction variants. -/
def fixInstruction (v : ValidationResult) : String :=
  "Fix " ++ v.field_name ++ ": " ++ v.error_message.getD "correct this field"

/-- Modelled from the spec: derive — one instruction per failed result, in
the order of the result list; nothing for passing results. -/
def derive (results : List ValidationResult) : List String :=
  (results.filter (fun v => !v.passed)).map fixInstruction

/-! ### Top-level orchestration (spec section 4.4) -/

/-- Modelled from the spec: build_report — single-document results for the
invoice, then for the packing list, then the cross-document results;
overall_status is fail exactly when some result failed; the deriver runs
on the combined list. -/
def build_report (document_id : String) (inv pl : DocumentFieldSet) :
    ComplianceReport :=
  let vs := evaluate_single inv ++ evaluate_single pl ++ evaluate_cross inv pl
  ⟨document_id,
    if vs.any (fun v => !v.passed) then Status.fail else Status.pass,
    vs,
    derive vs⟩

/-! ### Frontend types, from src/frontend/src/pages/ResultsPage.tsx -/

/-- The literal union type of ReportData.overall_status in the frontend. -/
inductive StatusLiteral where
  | pass
  | fail
deriving Repr, DecidableEq

/-- The Validation interface of ResultsPage.tsx: field_name, passed,
error_message (string or null). -/
structure Validation where
  field_name : String
  passed : Bool
  error_message : Option String
deriving Repr, DecidableEq

/-- The ReportData interface of ResultsPage.tsx: document_id,
overall_status, validations, fix_instructions. -/
structure ReportData where
  document_id : String
  overall_status : StatusLiteral
  validations : List Validation
  fix_instructions : List String
deriving Repr, DecidableEq

def statusToFrontend : Status → StatusLiteral
  | .pass => .pass
  | .fail => .fail

def statusOfFrontend : StatusLiteral → Status
  | .pass => .pass
  | .fail => .fail

def valToFrontend (v : ValidationResult) : Validation :=
  ⟨v.field_name, v.passed, v.error_message⟩

def valOfFrontend (v : Validation) : ValidationResult :=
  ⟨v.field_name, v.passed, v.error_message⟩

/-- Field-by-field translation of an engine report into the frontend
ReportData shape. -/
def toReportData (r : ComplianceReport) : ReportData :=
  ⟨r.document_id, statusToFrontend r.overall_status,
    r.validations.map valToFrontend, r.fix_instructions⟩

/-- Field-by-field translation back from the frontend shape. -/
def toComplianceReport (d : ReportData) : ComplianceReport :=
  ⟨d.document_id, statusOfFrontend d.overall_status,
    d.validations.map valOfFrontend, d.fix_instructions⟩

/-- FIELD_NAME_MAP of ResultsPage.tsx, in declaration order. -/
def FIELD_NAME_MAP : List (String × String) :=
  [("hs_code", "HS 编码"),
   ("invoice_value", "发票金额"),
   ("invoice_date", "发票日期"),
   ("shipper_name", "发货人名称"),
   ("shipper_address", "发货人地址"),
   ("consignee_name", "收货人名称"),
   ("consignee_address", "收货人地址"),
   ("product_description", "产品描述"),
   ("document_date", "单据日期"),
   ("item_count", "品项数量"),
   ("item_count_match", "品项数量匹配"),
   ("invoice_number_match", "发票号匹配"),
   ("shipper_consistency", "发货人一致性"),
   ("consignee_consistency", "收货人一致性")]

/-- The display name computed by ResultsPage.tsx:
FIELD_NAME_MAP[validation.field_name] || validation.field_name.  The
JavaScript or-operator also falls back when the mapped label is the empty
string, which the model reproduces. -/
def displayName (field_name : String) : String :=
  match lookupField field_name FIELD_NAME_MAP with
  | some label => if label = "" then field_name else label
  | none => field_name

/-! ### Applicable-rule catalog size (spec section 8, completeness) -/

/-- The rules of the catalog applicable to a given document pairing: the
single-document rules applicable to each document plus every cross-document
rule. -/
def applicableRuleNames (inv pl : DocumentFieldSet) : List String :=
  (singleRules.filter (fun r => r.applies inv.document_type)).map SingleRule.field_name ++
    (singleRules.filter (fun r => r.applies pl.document_type)).map SingleRule.field_name ++
    crossRules.map CrossRule.field_name

def applicableRuleCount (inv pl : DocumentFieldSet) : Nat :=
  (singleRules.filter (fun r => r.applies inv.document_type)).length +
    (singleRules.filter (fun r => r.applies pl.document_type)).length +
    crossRules.length

/-! ### Sample inputs used by the witnesses -/

def sampleInv : DocumentFieldSet :=
  ⟨.invoice,
   [("hs_code", ⟨"hs_code", .str "84713000", true⟩),
    ("invoice_value", ⟨"invoice_value", .dec 1000 (some "USD"), true⟩),
    ("shipper_name", ⟨"shipper_name", .str "abc trading co.", true⟩),
    ("consignee_name", ⟨"consignee_name", .str "globex corporation", true⟩),
    ("consignee_address", ⟨"consignee_address", .str "123 main street, springfield", true⟩),
    ("product_description", ⟨"product_description", .str "laptop computer model x", true⟩),
    ("invoice_date", ⟨"invoice_date", .date ⟨2024, 3, 15⟩, true⟩),
    ("invoice_number", ⟨"invoice_number", .str "inv-001", true⟩),
    ("item_count", ⟨"item_count", .int 12, true⟩)]⟩

def samplePl : DocumentFieldSet :=
  ⟨.packing_list,
   [("shipper_name", ⟨"shipper_name", .str "abc trading company", true⟩),
    ("consignee_name", ⟨"consignee_name", .str "globex corporation", true⟩),
    ("consignee_address", ⟨"consignee_address", .str "123 main street, springfield", true⟩),
    ("product_description", ⟨"product_description", .str "laptop computer model x", true⟩),
    ("invoice_number", ⟨"invoice_number", .str "inv-001", true⟩),
    ("item_count", ⟨"item_count", .int 12, true⟩)]⟩

/-- Packing list whose item count disagrees with the sample invoice. -/
def samplePlTen : DocumentFieldSet :=
  ⟨.packing_list,
   [("shipper_name", ⟨"shipper_name", .str "abc trading company", true⟩),
    ("item_count", ⟨"item_count", .int 10, true⟩)]⟩

/-- Invoice whose HS code has only three digits. -/
def badHsInv : DocumentFieldSet :=
  ⟨.invoice, [("hs_code", ⟨"hs_code", .str "847", true⟩)]⟩

/-! ### Helper lemmas -/

lemma evalSingleRule_field_name (fs : DocumentFieldSet) (r : SingleRule) :
    (evalSingleRule fs r).field_name = r.field_name := rfl

lemma evalCrossRule_field_name (inv pl : DocumentFieldSet) (r : CrossRule) :
    (evalCrossRule inv pl r).field_name = r.field_name := rfl

lemma status_iff (vs : List ValidationResult) :
    ((if vs.any (fun v => !v.passed) then Status.fail else Status.pass) = Status.fail
        ↔ ∃ v ∈ vs, v.passed = false) ∧
    ((if vs.any (fun v => !v.passed) then Status.fail else Status.pass) = Status.pass
        ↔ ∀ v ∈ vs, v.passed = true) := by
  by_cases h : vs.any (fun v => !v.passed) = true
  · have hex : ∃ v ∈ vs, v.passed = false := by
      simpa using List.any_eq_true.mp h
    obtain ⟨v, hv, hp⟩ := hex
    constructor
    · simp only [if_pos h]
      exact ⟨fun _ => ⟨v, hv, hp⟩, fun _ => trivial⟩
    · simp only [if_pos h]
      constructor
      · intro hcontra
        cases hcontra
      · intro hall
        rw [hall v hv] at hp
        cases hp
  · have hall : ∀ v ∈ vs, v.passed = true := by
      intro v hv
      by_contra hc
      exact h (List.any_eq_true.mpr ⟨v, hv, by simpa using hc⟩)
    constructor
    · simp only [if_neg h]
      constructor
      · intro hcontra
        cases hcontra
      · rintro ⟨v, hv, hp⟩
        rw [hall v hv] at hp
        cases hp
    · simp only [if_neg h]
      exact ⟨fun _ => hall, fun _ => trivial⟩

lemma lookupField_mem {α : Type} {k : String} {v : α} :
    ∀ {l : List (String × α)}, lookupField k l = some v → (k, v) ∈ l := by
  intro l
  induction l with
  | nil => intro h; cases h
  | cons p rest ih =>
    intro h
    rw [lookupField] at h
    by_cases hk : p.1 = k
    · rw [if_pos hk] at h
      cases h
      cases p
      cases hk
      exact List.mem_cons_self _ _
    · rw [if_neg hk] at h
      exact List.mem_cons_of_mem _ (ih h)

lemma status_roundtrip (s : Status) : statusOfFrontend (statusToFrontend s) = s := by
  cases s <;> rfl

lemma statusLiteral_roundtrip (s : StatusLiteral) :
    statusToFrontend (statusOfFrontend s) = s := by
  cases s <;> rfl

lemma val_roundtrip (v : ValidationResult) : valOfFrontend (valToFrontend v) = v := rfl

lemma validation_roundtrip (v : Validation) : valToFrontend (valOfFrontend v) = v := rfl

lemma toCompliance_toReport (r : ComplianceReport) :
    toComplianceReport (toReportData r) = r := by
  cases r with
  | mk a b c d =>
    simp [toReportData, toComplianceReport, status_roundtrip, List.map_map]
    exact List.map_id c

lemma toReport_toCompliance (d : ReportData) :
    toReportData (toComplianceReport d) = d := by
  cases d with
  | mk a b c e =>
    simp [toReportData, toComplianceReport, statusLiteral_roundtrip, List.map_map]
    exact List.map_id c

/-! ### Claim theorems -/

/-- C1: for every ComplianceReport produced by build_report, overall_status
is fail iff some ValidationResult in validations has passed = false, and
overall_status is pass iff every ValidationResult has passed = true. -/
theorem overall_status_consistency (docId : String) (inv pl : DocumentFieldSet) :
    ((build_report docId inv pl).overall_status = Status.fail ↔
      ∃ v ∈ (build_report docId inv pl).validations, v.passed = false) ∧
    ((build_report docId inv pl).overall_status = Status.pass ↔
      ∀ v ∈ (build_report docId inv pl).validations, v.passed = true) :=
  status_iff (evaluate_single inv ++ evaluate_single pl ++ evaluate_cross inv pl)

/-- C2: for every input pair of DocumentFieldSets, every rule of the active
catalog applicable to the given documents produces exactly one
ValidationResult, in catalog order, so the length of validations equals the
number of applicable rules; moreover on entirely missing data every rule
still reports, as a failure rather than an omission. -/
theorem validations_complete (docId : String) (inv pl : DocumentFieldSet) :
    (build_report docId inv pl).validations.map ValidationResult.field_name =
      applicableRuleNames inv pl ∧
    (build_report docId inv pl).validations.length = applicableRuleCount inv pl ∧
    (∀ dt1 dt2 : DocType,
      ((build_report docId ⟨dt1, []⟩ ⟨dt2, []⟩).validations.all
        (fun v => v.passed == false)) = true) := by
  refine ⟨?_, ?_, ?_⟩
  · simp only [build_report, evaluate_single, evaluate_cross, applicableRuleNames,
      List.map_append, List.map_map]
    rfl
  · simp [build_report, evaluate_single, evaluate_cross, applicableRuleCount]
    omega
  · intro dt1 dt2
    cases dt1 <;> cases dt2 <;> rfl

/-- C3: the engine's ComplianceReport carries exactly the fields
document_id, overall_status, validations (elements with field_name, passed,
error_message) and fix_instructions consumed by the frontend ReportData
type: the field-for-field translations between the two shapes are mutually
inverse and preserve every field, on every engine output. -/
theorem report_shape_contract (docId : String) (inv pl : DocumentFieldSet) :
    (toReportData (build_report docId inv pl)).document_id =
      (build_report docId inv pl).document_id ∧
    (toReportData (build_report docId inv pl)).overall_status =
      statusToFrontend (build_report docId inv pl).overall_status ∧
    (toReportData (build_report docId inv pl)).validations.map
        (fun v => (v.field_name, v.passed, v.error_message)) =
      (build_report docId inv pl).validations.map
        (fun v => (v.field_name, v.passed, v.error_message)) ∧
    (toReportData (build_report docId inv pl)).fix_instructions =
      (build_report docId inv pl).fix_instructions ∧
    toComplianceReport (toReportData (build_report docId inv pl)) =
      build_report docId inv pl ∧
    ∀ d : ReportData, toReportData (toComplianceReport d) = d := by
  refine ⟨rfl, rfl, ?_, rfl, toCompliance_toReport _, toReport_toCompliance⟩
  rw [toReportData, List.map_map]
  rfl

/-- C4: derive emits exactly one fix instruction per failed ValidationResult
and none for passing ones: fix_instructions is the map of the instruction
template over the validations filtered to failures, so its length is the
count of failed validations and its order follows the failures in order. -/
theorem fix_instructions_correspondence :
    (∀ results : List ValidationResult,
      derive results = (results.filter (fun v => v.passed == false)).map fixInstruction ∧
      (derive results).length = results.countP (fun v => v.passed == false)) ∧
    (∀ (docId : String) (inv pl : DocumentFieldSet),
      (build_report docId inv pl).fix_instructions =
        ((build_report docId inv pl).validations.filter
          (fun v => v.passed == false)).map fixInstruction) := by
  have hfil : ∀ results : List ValidationResult,
      results.filter (fun v => !v.passed) = results.filter (fun v => v.passed == false) := by
    intro results
    apply List.filter_congr
    intro v _
    cases v.passed <;> rfl
  constructor
  · intro results
    constructor
    · rw [derive, hfil]
    · rw [derive, hfil, List.length_map, ← List.countP_eq_length_filter]
  · intro docId inv pl
    show derive _ = _
    rw [derive, hfil]
    rfl

/-- C9: build_report is deterministic — identical (document id, invoice,
packing list) inputs give identical ComplianceReport content. -/
theorem build_report_deterministic (id1 id2 : String) (inv1 inv2 pl1 pl2 : DocumentFieldSet)
    (hid : id1 = id2) (hinv : inv1 = inv2) (hpl : pl1 = pl2) :
    build_report id1 inv1 pl1 = build_report id2 inv2 pl2 := by
  subst hid
  subst hinv
  subst hpl
  rfl

/-- Witness for C9 at a concrete input. -/
theorem build_report_deterministic_witness :
    ("doc-1" : String) = "doc-1" ∧ sampleInv = sampleInv ∧ samplePl = samplePl ∧
    build_report "doc-1" sampleInv samplePl = build_report "doc-1" sampleInv samplePl :=
  ⟨rfl, rfl, rfl,
    build_report_deterministic "doc-1" "doc-1" sampleInv sampleInv samplePl samplePl
      rfl rfl rfl⟩

lemma union_zero_names (a b : String) (h : (unionTokens a b).length = 0) :
    normNameChars a = [] ∧ normNameChars b = [] := by
  have h1 : unionTokens a b = [] := List.length_eq_zero.mp h
  have h2 : wordTokens a ++ wordTokens b = [] := (List.dedup_eq_nil _).mp h1
  obtain ⟨ha, hb⟩ := List.append_eq_nil.mp h2
  have ha2 : wordsOf (foldStrip a) = [] := (List.dedup_eq_nil _).mp ha
  have hb2 : wordsOf (foldStrip b) = [] := (List.dedup_eq_nil _).mp hb
  constructor
  · rw [normNameChars, ha2]
    rfl
  · rw [normNameChars, hb2]
    rfl

lemma overlapMeets_iff_pos (a b : String) (h : (unionTokens a b).length ≠ 0) :
    overlapMeets a b = true ↔ matchThreshold ≤ tokenOverlap a b := by
  have hu : (0 : ℚ) < ((unionTokens a b).length : ℚ) := by
    exact_mod_cast Nat.pos_of_ne_zero h
  simp only [overlapMeets, decide_eq_true_eq, matchThreshold, tokenOverlap,
    thresholdNum, thresholdDen]
  rw [div_le_div_iff₀ (by norm_num) hu]
  push_cast
  constructor
  · intro hle
    have hc : ((6 * (unionTokens a b).length : Nat) : ℚ) ≤
        ((10 * (interTokens a b).length : Nat) : ℚ) := by
      exact_mod_cast hle
    push_cast at hc
    linarith
  · intro hle
    have hc : (6 : ℚ) * ((unionTokens a b).length : ℚ) ≤
        (10 : ℚ) * ((interTokens a b).length : ℚ) := by
      linarith
    exact_mod_cast hc

lemma fuzzyMatch_iff (a b : String) :
    fuzzyMatch a b = true ↔
      (matchThreshold ≤ tokenOverlap a b ∨
        listIsInfix (normNameChars a) (normNameChars b) = true ∨
        listIsInfix (normNameChars b) (normNameChars a) = true) := by
  rcases Nat.eq_zero_or_pos (unionTokens a b).length with h0 | hpos
  · obtain ⟨ha, hb⟩ := union_zero_names a b h0
    have hinf : listIsInfix (normNameChars a) (normNameChars b) = true := by
      rw [ha, hb]
      rfl
    constructor
    · intro _
      exact Or.inr (Or.inl hinf)
    · intro _
      simp [fuzzyMatch, hinf]
  · have key := overlapMeets_iff_pos a b (Nat.pos_iff_ne_zero.mp hpos)
    simp [fuzzyMatch, Bool.or_eq_true, key]
    tauto

lemma consistency_passed_iff (key label : String) (inv pl : DocumentFieldSet)
    (a b : String) (h1 : getStr inv key = some a) (h2 : getStr pl key = some b) :
    (consistencyRun key label inv pl).1 = true ↔
      (matchThreshold ≤ tokenOverlap a b ∨
        listIsInfix (normNameChars a) (normNameChars b) = true ∨
        listIsInfix (normNameChars b) (normNameChars a) = true) := by
  rw [← fuzzyMatch_iff]
  simp only [consistencyRun, h1, h2]
  cases hf : fuzzyMatch a b
  · simp [hf]
  · simp [hf]

/-- C5: the item_count_match cross-document check passes iff the normalized
integer item counts of invoice and packing list are both present and equal;
a missing count on either side fails with the distinct cannot-verify
message; present but unequal counts fail with a message naming both
counts. -/
theorem item_count_match_spec (docId : String) (inv pl : DocumentFieldSet) :
    evalCrossRule inv pl itemCountRule ∈ (build_report docId inv pl).validations ∧
    (evalCrossRule inv pl itemCountRule).field_name = "item_count_match" ∧
    ((evalCrossRule inv pl itemCountRule).passed = true ↔
      ∃ n : Int, getCount inv = some n ∧ getCount pl = some n) ∧
    (getCount inv = none ∨ getCount pl = none →
      (evalCrossRule inv pl itemCountRule).passed = false ∧
      (evalCrossRule inv pl itemCountRule).error_message =
        some "cannot verify item count: missing in one or both documents") ∧
    (∀ n m : Int, getCount inv = some n → getCount pl = some m → n ≠ m →
      (evalCrossRule inv pl itemCountRule).passed = false ∧
      (evalCrossRule inv pl itemCountRule).error_message =
        some ("item count mismatch: invoice=" ++ toString n ++
          ", packing list=" ++ toString m)) := by
  refine ⟨List.mem_append_right _ (List.mem_map_of_mem _ (by simp [crossRules])),
    rfl, ?_, ?_, ?_⟩
  · show (itemCountRun inv pl).1 = true ↔ _
    rcases hgi : getCount inv with _ | n
    · simp [itemCountRun, hgi]
    · rcases hgp : getCount pl with _ | m
      · simp [itemCountRun, hgi, hgp]
      · by_cases hnm : n = m
        · subst hnm
          simp [itemCountRun, hgi, hgp]
        · simp [itemCountRun, hgi, hgp, hnm]
          intro h
          exact hnm h.symm
  · intro h
    rcases hgi : getCount inv with _ | n
    · exact ⟨by simp [evalCrossRule, itemCountRule, itemCountRun, hgi],
        by simp [evalCrossRule, itemCountRule, itemCountRun, hgi, cannotVerifyCounts]⟩
    · rcases hgp : getCount pl with _ | m
      · exact ⟨by simp [evalCrossRule, itemCountRule, itemCountRun, hgi, hgp],
          by simp [evalCrossRule, itemCountRule, itemCountRun, hgi, hgp, cannotVerifyCounts]⟩
      · rcases h with h | h
        · rw [hgi] at h
          cases h
        · rw [hgp] at h
          cases h
  · intro n m hn hm hnm
    constructor
    · show (itemCountRun inv pl).1 = false
      simp [itemCountRun, hn, hm, hnm]
    · show (itemCountRun inv pl).2 = _
      simp [itemCountRun, hn, hm, hnm, countMismatchMsg]

/-- Witness for C5 at the spec's Example 2 counts: 12 vs 10 fails with the
message naming both counts, 12 vs 12 passes. -/
theorem item_count_match_witness :
    getCount sampleInv = some 12 ∧ getCount samplePlTen = some 10 ∧
    (evalCrossRule sampleInv samplePlTen itemCountRule).passed = false ∧
    (evalCrossRule sampleInv samplePlTen itemCountRule).error_message =
      some "item count mismatch: invoice=12, packing list=10" ∧
    (evalCrossRule sampleInv samplePl itemCountRule).passed = true := by
  have h := (item_count_match_spec "doc-1" sampleInv samplePlTen).2.2.2.2 12 10
    (by decide) (by decide) (by decide)
  exact ⟨by decide, by decide, h.1, h.2.trans (by decide), by decide⟩

/-- C6: with the shipper_name (resp. consignee_name) string present in both
documents, the shipper_consistency (resp. consignee_consistency) check
passes iff the token-set Jaccard ratio of the normalized names reaches the
0.6 threshold or one normalized name is a substring of the other. -/
theorem name_consistency_spec (docId : String) (inv pl : DocumentFieldSet)
    (a b : String)
    (hs1 : getStr inv "shipper_name" = some a)
    (hs2 : getStr pl "shipper_name" = some b) :
    evalCrossRule inv pl shipperConsistencyRule ∈ (build_report docId inv pl).validations ∧
    evalCrossRule inv pl consigneeConsistencyRule ∈ (build_report docId inv pl).validations ∧
    ((evalCrossRule inv pl shipperConsistencyRule).passed = true ↔
      (matchThreshold ≤ tokenOverlap a b ∨
        listIsInfix (normNameChars a) (normNameChars b) = true ∨
        listIsInfix (normNameChars b) (normNameChars a) = true)) ∧
    (∀ c d : String, getStr inv "consignee_name" = some c →
      getStr pl "consignee_name" = some d →
      ((evalCrossRule inv pl consigneeConsistencyRule).passed = true ↔
        (matchThreshold ≤ tokenOverlap c d ∨
          listIsInfix (normNameChars c) (normNameChars d) = true ∨
          listIsInfix (normNameChars d) (normNameChars c) = true))) := by
  refine ⟨List.mem_append_right _ (List.mem_map_of_mem _ (by simp [crossRules])),
    List.mem_append_right _ (List.mem_map_of_mem _ (by simp [crossRules])), ?_, ?_⟩
  · exact consistency_passed_iff "shipper_name" "shipper name" inv pl a b hs1 hs2
  · intro c d hc1 hc2
    exact consistency_passed_iff "consignee_name" "consignee name" inv pl c d hc1 hc2

/-- Witness for C6: "abc trading co." against "abc trading company" passes
through the substring branch of the match decision. -/
theorem name_consistency_witness :
    getStr sampleInv "shipper_name" = some "abc trading co." ∧
    getStr samplePl "shipper_name" = some "abc trading company" ∧
    (evalCrossRule sampleInv samplePl shipperConsistencyRule).passed = true := by
  refine ⟨by decide, by decide, ?_⟩
  exact (name_consistency_spec "doc-1" sampleInv samplePl "abc trading co."
      "abc trading company" (by decide) (by decide)).2.2.1.mpr
    (Or.inr (Or.inl (by decide)))

/-- C7: the hs_code single-document rule passes iff the field is present
and its digits-only projection consists of 6 to 10 digits; otherwise it
fails with the fixed message "HS code missing or invalid". -/
theorem hs_code_rule_spec (docId : String) (inv pl : DocumentFieldSet)
    (h : inv.document_type = DocType.invoice) :
    evalSingleRule inv hsCodeRule ∈ (build_report docId inv pl).validations ∧
    (evalSingleRule inv hsCodeRule).field_name = "hs_code" ∧
    ((evalSingleRule inv hsCodeRule).passed = true ↔
      ∃ s, getStr inv "hs_code" = some s ∧
        6 ≤ (digitsOnly s).length ∧ (digitsOnly s).length ≤ 10) ∧
    ((evalSingleRule inv hsCodeRule).passed = false →
      (evalSingleRule inv hsCodeRule).error_message =
        some "HS code missing or invalid") := by
  refine ⟨?_, rfl, ?_, ?_⟩
  · apply List.mem_append_left
    apply List.mem_append_left
    apply List.mem_map_of_mem
    rw [List.mem_filter]
    refine ⟨by simp [singleRules], ?_⟩
    rw [h]
    rfl
  · show hsCodeOk inv = true ↔ _
    rcases hg : getStr inv "hs_code" with _ | s
    · simp [hsCodeOk, hg]
    · simp [hsCodeOk, hg]
  · intro hfalse
    have hok : hsCodeOk inv = false := hfalse
    show (if hsCodeOk inv then none else some hsCodeRule.message) = _
    rw [hok]
    rfl

/-- Witness for C7 at the spec's Example 1: "84713000" passes, "847" fails
with the fixed message. -/
theorem hs_code_rule_witness :
    sampleInv.document_type = DocType.invoice ∧
    (evalSingleRule sampleInv hsCodeRule).passed = true ∧
    badHsInv.document_type = DocType.invoice ∧
    (evalSingleRule badHsInv hsCodeRule).passed = false ∧
    (evalSingleRule badHsInv hsCodeRule).error_message =
      some "HS code missing or invalid" :=
  ⟨rfl, by decide, rfl, by decide,
    (hs_code_rule_spec "doc-1" badHsInv samplePl rfl).2.2.2 (by decide)⟩

/-- C8: normalize is total and never raises — for every ExtractedField,
type hint and locale it yields present = false exactly when the raw value
is missing, all-whitespace (in particular empty), or unparsable under the
hint (money without a numeric token, a date matching no pattern or not a
valid calendar date, an integer with no digit); so every malformed input
yields a NormalizedField with present = false rather than an error, and an
empty invoice_date funnels into the Rule Engine failure "Missing required
date" instead of an exception. -/
theorem normalize_missing_safe :
    (∀ (f : ExtractedField) (hint : TypeHint) (loc : LocaleHint),
      (normalize f hint loc).present = false ↔
        (f.raw_value = none ∨
          ∃ s, f.raw_value = some s ∧
            (s.toList.all Char.isWhitespace = true ∨
              (hint = TypeHint.money ∧ (parseMoney s.toList).2 = none) ∨
              (hint = TypeHint.date ∧ parseDate loc s.toList = none) ∨
              (hint = TypeHint.integer ∧ s.toList.filter Char.isDigit = [])))) ∧
    (∀ (conf : Rat) (loc : LocaleHint),
      (normalize ⟨"invoice_date", some "", conf⟩ TypeHint.date loc).present = false) ∧
    (∀ (conf : Rat) (loc : LocaleHint) (dt : DocType),
      evalSingleRule
        ⟨dt, [("invoice_date", normalize ⟨"invoice_date", some "", conf⟩ TypeHint.date loc)]⟩
        invoiceDateRule =
        ⟨"invoice_date", false, some "Missing required date"⟩) := by
  refine ⟨?_, fun conf loc => rfl, fun conf loc dt => rfl⟩
  intro f hint loc
  rcases hr : f.raw_value with _ | s
  · simp [normalize, hr, notPresent]
  · simp only [normalize, hr]
    by_cases hw : s.toList.all Char.isWhitespace = true
    · rw [if_pos hw]
      exact iff_of_true rfl (Or.inr ⟨s, rfl, Or.inl hw⟩)
    · rw [if_neg hw]
      cases hint
      · refine iff_of_false (by simp) ?_
        rintro (h | ⟨s', hs', hd⟩)
        · cases h
        · cases hs'
          rcases hd with hws | ⟨he, _⟩ | ⟨he, _⟩ | ⟨he, _⟩
          · exact hw hws
          · cases he
          · cases he
          · cases he
      · rcases hpm : parseMoney s.toList with ⟨ccy, _ | amt⟩
        · exact iff_of_true rfl (Or.inr ⟨s, rfl, Or.inr (Or.inl ⟨rfl, by rw [hpm]⟩)⟩)
        · refine iff_of_false (by simp) ?_
          rintro (h | ⟨s', hs', hd⟩)
          · cases h
          · cases hs'
            rcases hd with hws | ⟨_, hno⟩ | ⟨he, _⟩ | ⟨he, _⟩
            · exact hw hws
            · rw [hpm] at hno
              cases hno
            · cases he
            · cases he
      · rcases hpd : parseDate loc s.toList with _ | d
        · exact iff_of_true rfl (Or.inr ⟨s, rfl, Or.inr (Or.inr (Or.inl ⟨rfl, hpd⟩))⟩)
        · refine iff_of_false (by simp) ?_
          rintro (h | ⟨s', hs', hd⟩)
          · cases h
          · cases hs'
            rcases hd with hws | ⟨he, _⟩ | ⟨_, hno⟩ | ⟨he, _⟩
            · exact hw hws
            · cases he
            · rw [hpd] at hno
              cases hno
            · cases he
      · rcases hfd : s.toList.filter Char.isDigit with _ | ⟨c, cs⟩
        · exact iff_of_true rfl (Or.inr ⟨s, rfl, Or.inr (Or.inr (Or.inr ⟨rfl, hfd⟩))⟩)
        · refine iff_of_false (by simp) ?_
          rintro (h | ⟨s', hs', hd⟩)
          · cases h
          · cases hs'
            rcases hd with hws | ⟨he, _⟩ | ⟨he, _⟩ | ⟨_, hno⟩
            · exact hw hws
            · cases he
            · cases he
            · rw [hfd] at hno
              cases hno

/-- Witness for C8 at the empty invoice_date of the spec's Example 5 and at
an unparsable date (February 31st). -/
theorem normalize_missing_witness :
    parseDate LocaleHint.dmy ("31/02/2024".toList) = none ∧
    (normalize ⟨"invoice_date", some "31/02/2024", 1⟩ TypeHint.date LocaleHint.dmy).present =
      false ∧
    (normalize ⟨"invoice_date", some "", 1⟩ TypeHint.date LocaleHint.dmy).present = false :=
  ⟨by decide,
    (normalize_missing_safe.1 ⟨"invoice_date", some "31/02/2024", 1⟩ TypeHint.date
        LocaleHint.dmy).mpr
      (Or.inr ⟨"31/02/2024", rfl, Or.inr (Or.inr (Or.inl ⟨rfl, by decide⟩))⟩),
    (normalize_missing_safe.1 ⟨"invoice_date", some "", 1⟩ TypeHint.date LocaleHint.dmy).mpr
      (Or.inr ⟨"", rfl, Or.inl (by decide)⟩)⟩

/-- C10: the ResultsPage display name is total — the Chinese label from
FIELD_NAME_MAP when field_name is one of the fourteen mapped keys, and the
raw field_name itself for any unmapped name, so no label is ever
undefined. -/
theorem display_name_total :
    (∀ fn label, lookupField fn FIELD_NAME_MAP = some label → displayName fn = label) ∧
    (∀ fn, lookupField fn FIELD_NAME_MAP = none → displayName fn = fn) ∧
    FIELD_NAME_MAP.length = 14 := by
  refine ⟨?_, ?_, rfl⟩
  · intro fn label h
    have hm : (fn, label) ∈ FIELD_NAME_MAP := lookupField_mem h
    have hne : label ≠ "" := by fin_cases hm <;> decide
    rw [displayName, h]
    simp [hne]
  · intro fn h
    rw [displayName, h]

/-- Witness for C10: a mapped key renders its Chinese label, an unmapped
key renders itself. -/
theorem display_name_witness :
    lookupField "hs_code" FIELD_NAME_MAP = some "HS 编码" ∧
    displayName "hs_code" = "HS 编码" ∧
    lookupField "mystery_field" FIELD_NAME_MAP = none ∧
    displayName "mystery_field" = "mystery_field" :=
  ⟨by decide, display_name_total.1 "hs_code" "HS 编码" (by decide), by decide,
    display_name_total.2.1 "mystery_field" (by decide)⟩

end Shipper
